import Mathlib

/-!
Shallow embedding of the context-window splitter and referential-integrity
verifier of the propagation-graph repository
(src/scripts/verify_outputs.py, src/scripts/split_labels_by_category.py,
src/scripts/split_inputs_by_category.py).

Python strings are modelled as lists of characters, Python dicts as
association lists looked up by first match (dict keys are unique, so the
first match is the only match), and Python sets as lists compared by
membership.
-/

namespace PropagationGraph

/-- A Python string, modelled as a list of characters. -/
abbrev Str := List Char

/-- Association-list lookup modelling Python `dict.get(key)`. -/
def alookup {α : Type} : List (Str × α) → Str → Option α
  | [], _ => none
  | (k, v) :: t, key => if k = key then some v else alookup t key

/-- `startsWith pat s` is true when `s` begins with `pat`
(Python: `s.startswith(pat)`, used to model the regex-literal match). -/
def startsWith : Str → Str → Bool
  | [], _ => true
  | _ :: _, [] => false
  | a :: as, b :: bs => a == b && startsWith as bs

/-- `re.sub(r'\(.*\)', '', s, flags=re.DOTALL)` from
`clean_symbol_name` (src/scripts/verify_outputs.py line 28): if the string
has a '(' with some ')' later, the greedy leftmost match removes the span
from the first such '(' through the last ')'; there is at most one match,
and no match at all when no ')' follows the first '('. -/
def removeParenSpan (s : Str) : Str :=
  if ')' ∈ s.dropWhile (· != '(') then
    s.takeWhile (· != '(') ++
      ((s.dropWhile (· != '(')).reverse.takeWhile (· != ')')).reverse
  else s

/-- `clean_symbol_name` (src/scripts/verify_outputs.py lines 23-30):
drop the parenthesised span, then `lstrip('.')` all leading dots. -/
def cleanSymbolName (s : Str) : Str :=
  (removeParenSpan s).dropWhile (· == '.')

/-- The literal `#selector(` that the regex
`re.search(r'#selector\((.*)\)', s)` must find. -/
def selectorMarker : Str := "#selector(".toList

/-- The capture group of `re.search(r'#selector\((.*)\)', s)` at one
candidate position: `.*` (no DOTALL) cannot cross a newline, and being
greedy it extends to the last ')' on the current line; `none` when no ')'
occurs before the next newline. -/
def lastCloseGroup (t : Str) : Option Str :=
  let line := t.takeWhile (· != '\n')
  if ')' ∈ line then some (((line.reverse.dropWhile (· != ')')).drop 1).reverse)
  else none

/-- Leftmost-position search of `re.search(r'#selector\((.*)\)', s)`:
try each position left to right; the pattern matches at a position when
the literal marker starts there and a ')' follows on the same line. -/
def findSelectorGroup : Str → Option Str
  | [] => none
  | s@(_ :: tail) =>
    if startsWith selectorMarker s then
      match lastCloseGroup (s.drop selectorMarker.length) with
      | some grp => some grp
      | none => findSelectorGroup tail
    else findSelectorGroup tail

/-- `extract_selector_name` (src/scripts/verify_outputs.py lines 33-44):
search for the selector pattern; from the capture group take the last
dotted component (`split('.')[-1]`) and cut it at the first '('
(`split('(')[0]`). -/
def extractSelectorName (s : Str) : Option Str :=
  (findSelectorGroup s).map
    (fun grp => ((grp.reverse.takeWhile (· != '.')).reverse).takeWhile (· != '('))

/-- A feature value inside a symbol's `input` dict: `verify_pair`
distinguishes `isinstance(value, list)` (of strings; list items are passed
through `str`, the identity on strings), `isinstance(value, str)`, and
anything else (booleans, numbers, nested dicts), which it ignores. -/
inductive FeatureValue : Type
  | str (s : Str)
  | list (l : List Str)
  | other
deriving DecidableEq

/-- One symbol record: `symbol.get('symbol_name', '')` may be missing
(`none`) or empty, and `symbol.get('input', {})` is a dict from
abbreviated feature keys to values. -/
structure Symbol where
  symbol_name : Option Str
  input : List (Str × FeatureValue)
deriving DecidableEq

/-- A symbol graph: dict from category name to the ordered list of its
symbols (`decisions` in the analyzer record, and the shape of the
label-stage output file). -/
abbrev SymbolGraph := List (Str × List Symbol)

/-- The five privileged semantic names whose features hold symbol names
(src/scripts/verify_outputs.py lines 76-79). -/
def privilegedNames : List Str :=
  ["references".toList, "calls_out".toList, "inherits".toList,
   "conforms".toList, "extension_of".toList]

/-- `keys_with_names` (src/scripts/verify_outputs.py lines 75-80): the set
of abbreviated keys `mapping.get(sem)` for the five privileged semantic
names, keeping only truthy results (a missing key or an empty string is
dropped by the `if mapping.get(key)` filter). -/
def keysWithNames (mapping : List (Str × Str)) : List Str :=
  privilegedNames.filterMap (fun sem =>
    match alookup mapping sem with
    | some k => if k = [] then none else some k
    | none => none)

/-- The normalized own name a symbol contributes (both the input-side and
the output-side loops guard with `if name:` — a missing or empty
`symbol_name` contributes nothing). -/
def ownNamesOfSymbol (s : Symbol) : List Str :=
  match s.symbol_name with
  | some n => if n = [] then [] else [cleanSymbolName n]
  | none => []

/-- Names contributed by one feature value under a key in
`keys_with_names`: each list item or single string is cleaned and added;
other value shapes contribute nothing. -/
def namesFromValue : FeatureValue → List Str
  | .list l => l.map cleanSymbolName
  | .str s => [cleanSymbolName s]
  | .other => []

/-- Names contributed by one feature value under the `selector_refs` key:
only list values are scanned, and an entry contributes its extracted
selector name only when extraction succeeds with a truthy (non-empty)
result (`if extracted_name:`). -/
def selectorNamesFromValue : FeatureValue → List Str
  | .list l => l.filterMap (fun sel =>
      match extractSelectorName sel with
      | some n => if n = [] then none else some n
      | none => none)
  | _ => []

/-- The contribution of one `(p_key, value)` entry of a symbol's `input`
dict: the `p_key in keys_with_names` branch wins over the
`elif p_key == selector_key` branch; any other key contributes nothing.
A `selector_key` of `none` models Python's `selector_key = None`, which
compares unequal to every string key. -/
def entryNames (kwn : List Str) (selKey : Option Str) (e : Str × FeatureValue) :
    List Str :=
  if e.1 ∈ kwn then namesFromValue e.2
  else if some e.1 = selKey then selectorNamesFromValue e.2
  else []

/-- All names one symbol contributes to `all_input_symbols`: its own
cleaned name plus the contributions of its `input` entries. -/
def symbolNames (kwn : List Str) (selKey : Option Str) (s : Symbol) : List Str :=
  ownNamesOfSymbol s ++ s.input.flatMap (entryNames kwn selKey)

/-- `all_input_symbols` (src/scripts/verify_outputs.py lines 83-103): the
Name Resolver's universe over a symbol graph, as a list compared by
membership. -/
def inputUniverse (mapping : List (Str × Str)) (g : SymbolGraph) : List Str :=
  g.flatMap (fun ce => ce.2.flatMap
    (symbolNames (keysWithNames mapping) (alookup mapping "selector_refs".toList)))

/-- The name one expected-output symbol contributes: its cleaned
`symbol_name` when present and non-empty (`if name:`), nothing
otherwise. -/
def outputNameOfSymbol (s : Symbol) : Option Str :=
  match s.symbol_name with
  | some n => if n = [] then none else some (cleanSymbolName n)
  | none => none

/-- `all_output_symbols` (src/scripts/verify_outputs.py lines 108-113):
the cleaned names of the expected-output symbols, skipping missing or
empty `symbol_name` fields. -/
def outputNames (o : SymbolGraph) : List Str :=
  o.flatMap (fun ce => ce.2.filterMap outputNameOfSymbol)

/-- Outcome of the containment check over one (input, output) pair. -/
inductive VerifyResult : Type
  | pass
  | fail (missing : List Str)
deriving DecidableEq

/-- The containment decision of `verify_pair`
(src/scripts/verify_outputs.py lines 115-120): PASS when
`all_output_symbols.issubset(all_input_symbols)`, otherwise FAIL carrying
`all_output_symbols - all_input_symbols` (set difference, modelled
membership-wise by a filter). -/
def verifyPair (mapping : List (Str × Str)) (g o : SymbolGraph) : VerifyResult :=
  if (outputNames o).all (fun x => decide (x ∈ inputUniverse mapping g)) then
    .pass
  else
    .fail ((outputNames o).filter (fun x => decide (x ∉ inputUniverse mapping g)))

/-- `CONTEXT_MAP` of src/scripts/split_labels_by_category.py
(lines 19-33): for each target category, the categories visible as
context. -/
def contextMapLabels : List (Str × List Str) :=
  [("methods".toList,
    ["classes".toList, "structs".toList, "enums".toList, "protocols".toList,
     "extensions".toList, "methods".toList, "initializers".toList,
     "deinitializers".toList, "subscripts".toList, "variables".toList]),
   ("properties".toList,
    ["classes".toList, "structs".toList, "enums".toList, "protocols".toList,
     "extensions".toList, "properties".toList, "variables".toList,
     "enumCases".toList]),
   ("variables".toList,
    ["classes".toList, "structs".toList, "enums".toList, "protocols".toList,
     "extensions".toList, "variables".toList, "properties".toList,
     "methods".toList]),
   ("initializers".toList,
    ["classes".toList, "structs".toList, "enums".toList, "protocols".toList,
     "extensions".toList, "initializers".toList]),
   ("deinitializers".toList,
    ["classes".toList, "structs".toList, "enums".toList, "protocols".toList,
     "extensions".toList, "deinitializers".toList]),
   ("subscripts".toList,
    ["classes".toList, "structs".toList, "enums".toList, "protocols".toList,
     "extensions".toList, "subscripts".toList]),
   ("enumCases".toList, ["enums".toList, "enumCases".toList]),
   ("classes".toList, ["classes".toList, "protocols".toList, "structs".toList]),
   ("structs".toList, ["structs".toList, "protocols".toList, "classes".toList]),
   ("enums".toList,
    ["enums".toList, "protocols".toList, "enumCases".toList, "classes".toList]),
   ("protocols".toList, ["protocols".toList]),
   ("extensions".toList,
    ["extensions".toList, "classes".toList, "structs".toList, "enums".toList,
     "protocols".toList])]

/-- `CONTEXT_MAP` of src/scripts/split_inputs_by_category.py
(lines 16-30): the (different) context table used when splitting raw
training inputs. -/
def contextMapInputs : List (Str × List Str) :=
  [("methods".toList,
    ["methods".toList, "initializers".toList, "deinitializers".toList,
     "subscripts".toList, "variables".toList]),
   ("properties".toList, ["properties".toList]),
   ("variables".toList, ["variables".toList]),
   ("initializers".toList,
    ["classes".toList, "structs".toList, "enums".toList, "protocols".toList,
     "extensions".toList, "initializers".toList]),
   ("deinitializers".toList,
    ["classes".toList, "structs".toList, "enums".toList, "protocols".toList,
     "extensions".toList, "deinitializers".toList]),
   ("subscripts".toList,
    ["classes".toList, "structs".toList, "enums".toList, "protocols".toList,
     "extensions".toList, "subscripts".toList]),
   ("enumCases".toList, ["enums".toList, "enumCases".toList]),
   ("classes".toList, ["classes".toList, "protocols".toList, "structs".toList]),
   ("structs".toList, ["structs".toList, "protocols".toList, "classes".toList]),
   ("enums".toList,
    ["enums".toList, "protocols".toList, "enumCases".toList, "classes".toList]),
   ("protocols".toList, ["protocols".toList]),
   ("extensions".toList,
    ["extensions".toList, "classes".toList, "structs".toList, "enums".toList,
     "protocols".toList]),
   ("typealiases".toList,
    ["typealiases".toList, "classes".toList, "structs".toList, "enums".toList,
     "protocols".toList, "extensions".toList])]

/-- The restriction loop shared by both splitters: for each required
context key, in order, copy the category's symbol list verbatim when the
category occurs in the source graph. -/
def restrictGraph (required : List Str) (decisions : SymbolGraph) : SymbolGraph :=
  required.filterMap (fun key => (alookup decisions key).map (fun v => (key, v)))

/-- The label assigned to an emitted context window. -/
inductive SampleLabel : Type
  | positive
  | negative
deriving DecidableEq

/-- A persisted context window: the restricted input graph, its label, and
the expected output (empty for Negative samples, for which no output file
is written). -/
structure Window where
  inputGraph : SymbolGraph
  label : SampleLabel
  expectedOutput : List Symbol
deriving DecidableEq

/-- One iteration of the per-category loop of `process_file_pair`
(src/scripts/split_labels_by_category.py lines 69-106): look up the
context keys (`continue` when absent), restrict the input decisions,
`continue` when the restriction is empty, then the three-way labeling
decision — `category in output_data and output_data.get(category)` emits
a Positive window with the output list verbatim; otherwise
`category in input_decisions` emits a Negative window; otherwise nothing
is emitted. -/
def processCategory (inputDecisions outputData : SymbolGraph) (category : Str) :
    Option Window :=
  match alookup contextMapLabels category with
  | none => none
  | some required =>
    if restrictGraph required inputDecisions = [] then none
    else
      match alookup outputData category with
      | some (s :: rest) =>
        some ⟨restrictGraph required inputDecisions, .positive, s :: rest⟩
      | _ =>
        if (alookup inputDecisions category).isSome then
          some ⟨restrictGraph required inputDecisions, .negative, []⟩
        else none

/-- One iteration of the per-group loop of `split_single_input_file`
(src/scripts/split_inputs_by_category.py lines 59-89): restrict the
original symbols to the group's source categories and skip the group when
nothing matched; otherwise a split input file is written. -/
def splitGroup (originalSymbols : SymbolGraph) (groupName : Str) :
    Option SymbolGraph :=
  match alookup contextMapInputs groupName with
  | none => none
  | some srcCats =>
    let grouped := restrictGraph srcCats originalSymbols
    if grouped = [] then none else some grouped

/-- The category names of a restricted graph. -/
def graphKeys (g : SymbolGraph) : List Str := g.map (fun ce => ce.1)

/-- Sanity check: the docstring example of `clean_symbol_name`. -/
theorem check_clean_viewDidLoad :
    cleanSymbolName "viewDidLoad(())".toList = "viewDidLoad".toList := by decide

/-- Sanity check: the docstring example `.deinit` of `clean_symbol_name`. -/
theorem check_clean_deinit :
    cleanSymbolName ".deinit".toList = "deinit".toList := by decide

/-- Sanity check: the docstring example of `extract_selector_name`. -/
theorem check_selector_processData :
    extractSelectorName "#selector(processData(_:))".toList =
      some "processData".toList := by decide

/-- Sanity check: a dotted receiver path keeps only its last component. -/
theorem check_selector_dotted :
    extractSelectorName "#selector(Foo.bar(_:))".toList =
      some "bar".toList := by decide

/-- Sanity check: a string without the selector marker extracts nothing. -/
theorem check_selector_no_marker :
    extractSelectorName "onTap".toList = none := by decide

/-- Sanity check (spec Scenario A shape): a category present upstream but
absent from the label output becomes a Negative window. -/
theorem check_negative_window :
    processCategory [("methods".toList, [⟨some "foo(x:)".toList, []⟩])] []
      "methods".toList
      = some ⟨[("methods".toList, [⟨some "foo(x:)".toList, []⟩])], .negative, []⟩ := by
  decide

/-- Sanity check: a labeled category becomes a Positive window carrying
the label list verbatim. -/
theorem check_positive_window :
    processCategory [("methods".toList, [⟨some "foo(x:)".toList, []⟩])]
      [("methods".toList, [⟨some "foo".toList, []⟩])] "methods".toList
      = some ⟨[("methods".toList, [⟨some "foo(x:)".toList, []⟩])], .positive,
          [⟨some "foo".toList, []⟩]⟩ := by
  decide

/-- Sanity check (spec Scenario D): output name qux against universe
foo/baz fails with missing qux. -/
theorem check_scenario_d :
    verifyPair []
      [("methods".toList, [⟨some "foo".toList, []⟩, ⟨some "baz".toList, []⟩])]
      [("methods".toList, [⟨some "qux".toList, []⟩])]
      = .fail ["qux".toList] := by
  decide

/-- Sanity check (spec Scenario B): a `calls_out` feature mapped to key
p16 contributes `baz` to the universe, so the pair passes. -/
theorem check_scenario_b :
    verifyPair [("calls_out".toList, "p16".toList)]
      [("methods".toList, [⟨some "m".toList,
         [("p16".toList, FeatureValue.list ["baz(_:)".toList])]⟩])]
      [("methods".toList, [⟨some "baz".toList, []⟩])]
      = .pass := by
  decide

/-! ### Helper lemmas about the containment verifier -/

/-- Characterization of the PASS outcome: exactly the subset condition. -/
theorem verifyPair_pass_iff (mapping : List (Str × Str)) (g o : SymbolGraph) :
    verifyPair mapping g o = .pass ↔
      ∀ x ∈ outputNames o, x ∈ inputUniverse mapping g := by
  unfold verifyPair
  split
  · rename_i h
    simp only [List.all_eq_true, decide_eq_true_eq] at h
    simpa using h
  · rename_i h
    simp only [List.all_eq_true, decide_eq_true_eq] at h
    simpa using h

/-- Characterization of the FAIL outcome: the attached missing list is,
membership-wise, the set difference of the output names and the
universe. -/
theorem verifyPair_fail_mem (mapping : List (Str × Str)) (g o : SymbolGraph)
    (ms : List Str) (h : verifyPair mapping g o = .fail ms) :
    ∀ x, x ∈ ms ↔ x ∈ outputNames o ∧ x ∉ inputUniverse mapping g := by
  unfold verifyPair at h
  split at h
  · exact absurd h (by simp)
  · intro x
    obtain rfl : ms = (outputNames o).filter
        (fun x => decide (x ∉ inputUniverse mapping g)) := by
      cases h; rfl
    simp [List.mem_filter]

/-- Unfolding of the per-symbol output-name computation. -/
theorem outputNameOfSymbol_eq_some (s : Symbol) (x : Str) :
    outputNameOfSymbol s = some x ↔
      ∃ n, s.symbol_name = some n ∧ n ≠ [] ∧ x = cleanSymbolName n := by
  unfold outputNameOfSymbol
  cases hn : s.symbol_name with
  | none => simp
  | some n =>
    by_cases hnil : n = []
    · simp [hnil]
    · simp only [if_neg hnil, Option.some_inj]
      constructor
      · intro hx
        exact ⟨n, rfl, hnil, hx.symm⟩
      · rintro ⟨m, hm, -, rfl⟩
        cases hm
        rfl

/-- Membership in the output-name set: exactly the cleaned names of output
symbols carrying a present, non-empty `symbol_name`. -/
theorem mem_outputNames_iff (o : SymbolGraph) (x : Str) :
    x ∈ outputNames o ↔
      ∃ ce ∈ o, ∃ s ∈ ce.2, ∃ n, s.symbol_name = some n ∧ n ≠ [] ∧
        x = cleanSymbolName n := by
  unfold outputNames
  simp only [List.mem_flatMap, List.mem_filterMap, outputNameOfSymbol_eq_some]

/-- A present, non-empty own name of any input symbol lands in the
Name Resolver's universe. -/
theorem ownName_mem_inputUniverse (mapping : List (Str × Str))
    (g : SymbolGraph) (ce : Str × List Symbol) (s : Symbol) (n : Str)
    (hce : ce ∈ g) (hs : s ∈ ce.2) (hn : s.symbol_name = some n)
    (hnil : n ≠ []) : cleanSymbolName n ∈ inputUniverse mapping g := by
  unfold inputUniverse
  rw [List.mem_flatMap]
  refine ⟨ce, hce, ?_⟩
  rw [List.mem_flatMap]
  refine ⟨s, hs, ?_⟩
  unfold symbolNames ownNamesOfSymbol
  rw [hn]
  dsimp only
  rw [if_neg hnil]
  exact List.mem_append_left _ (List.mem_singleton_self _)

/-! ### Generic list lemmas used by the normalization proofs -/

/-- Dropping a prefix before applying `dropWhile` leaves a suffix of the
original `dropWhile`. -/
theorem dropWhile_suffix_append (p : Char → Bool) (u t : Str) :
    t.dropWhile p <:+ (u ++ t).dropWhile p := by
  induction u with
  | nil => simp
  | cons a u ih =>
    by_cases hp : p a = true
    · rw [List.cons_append, List.dropWhile_cons, if_pos hp]
      exact ih
    · rw [List.cons_append, List.dropWhile_cons, if_neg hp]
      exact (List.dropWhile_suffix p).trans ⟨a :: u, rfl⟩

/-- `dropWhile` skips over a block of elements that all satisfy the
predicate. -/
theorem dropWhile_append_of_all (p : Char → Bool) (u t : Str)
    (h : ∀ x ∈ u, p x = true) : (u ++ t).dropWhile p = t.dropWhile p := by
  induction u with
  | nil => simp
  | cons a u ih =>
    rw [List.cons_append, List.dropWhile_cons, if_pos (h a (by simp))]
    exact ih fun x hx => h x (by simp [hx])

/-- `takeWhile` keeps an all-satisfying block and stops at the first
failing element. -/
theorem takeWhile_append_stop (p : Char → Bool) (u : Str) (x : Char) (t : Str)
    (h : ∀ y ∈ u, p y = true) (hx : p x = false) :
    (u ++ x :: t).takeWhile p = u := by
  induction u with
  | nil => simp [List.takeWhile_cons, hx]
  | cons a u ih =>
    rw [List.cons_append, List.takeWhile_cons, if_pos (h a (by simp))]
    rw [ih fun y hy => h y (by simp [hy])]

/-- `dropWhile` drops an all-satisfying block and stops at the first
failing element. -/
theorem dropWhile_append_stop (p : Char → Bool) (u : Str) (x : Char) (t : Str)
    (h : ∀ y ∈ u, p y = true) (hx : p x = false) :
    (u ++ x :: t).dropWhile p = x :: t := by
  rw [dropWhile_append_of_all p u (x :: t) h, List.dropWhile_cons, if_neg (by simp [hx])]

/-! ### The invariant behind idempotence of name normalization -/

/-- A string is settled when no ')' occurs at or after its first '(' —
i.e. the regex `\(.*\)` has no match, so `removeParenSpan` leaves it
unchanged. -/
def okParen (s : Str) : Prop := ')' ∉ s.dropWhile (· != '(')

/-- On a settled string the parenthesis-span removal is the identity. -/
theorem removeParenSpan_of_okParen (s : Str) (h : okParen s) :
    removeParenSpan s = s := by
  rw [removeParenSpan, if_neg h]

/-- The result of the parenthesis-span removal is always settled. -/
theorem okParen_removeParenSpan (s : Str) : okParen (removeParenSpan s) := by
  by_cases h : ')' ∈ s.dropWhile (· != '(')
  · rw [removeParenSpan, if_pos h]
    unfold okParen
    rw [dropWhile_append_of_all _ _ _
      (fun x hx => List.mem_takeWhile_imp hx)]
    intro hmem
    have h1 : (')' : Char) ∈
        ((s.dropWhile (· != '(')).reverse.takeWhile (· != ')')).reverse :=
      (List.dropWhile_suffix _).subset hmem
    rw [List.mem_reverse] at h1
    have h2 := List.mem_takeWhile_imp h1
    simp at h2
  · rw [removeParenSpan, if_neg h]
    exact h

/-- Settledness survives any further `dropWhile` (in particular the
leading-dot strip). -/
theorem okParen_dropWhile (p : Char → Bool) (s : Str) (h : okParen s) :
    okParen (s.dropWhile p) := by
  intro hmem
  obtain ⟨u, hu⟩ := List.dropWhile_suffix p (l := s)
  have h1 : (s.dropWhile p).dropWhile (· != '(') <:+ s.dropWhile (· != '(') := by
    conv_rhs => rw [← hu]
    exact dropWhile_suffix_append _ u _
  exact h (h1.subset hmem)

/-- Every cleaned name is settled. -/
theorem okParen_cleanSymbolName (s : Str) : okParen (cleanSymbolName s) :=
  okParen_dropWhile _ _ (okParen_removeParenSpan s)

/-! ### Further helper lemmas -/

/-- `takeWhile` is the identity on a list all of whose elements satisfy
the predicate. -/
theorem takeWhile_of_all (p : Char → Bool) (l : Str)
    (h : ∀ x ∈ l, p x = true) : l.takeWhile p = l := by
  induction l with
  | nil => rfl
  | cons a t ih =>
    rw [List.takeWhile_cons, if_pos (h a (by simp))]
    rw [ih fun x hx => h x (by simp [hx])]

/-- Any list is a match position for itself as a pattern. -/
theorem startsWith_append_self (pat rest : Str) :
    startsWith pat (pat ++ rest) = true := by
  induction pat with
  | nil => rfl
  | cons a t ih => simpa [startsWith] using ih

/-- The regex capture at a position whose remainder ends in ')' with no
earlier newline: the group is everything before that final ')'. -/
theorem lastCloseGroup_concat (body : Str) (h : '\n' ∉ body) :
    lastCloseGroup (body ++ [')']) = some body := by
  unfold lastCloseGroup
  rw [takeWhile_of_all _ _ (fun x hx => by
    rcases List.mem_append.1 hx with hb | hb
    · simp only [bne_iff_ne, ne_eq]
      intro he
      exact h (he ▸ hb)
    · simp at hb
      simp [hb])]
  rw [if_pos (by simp)]
  rw [List.reverse_append]
  simp

/-- The selector search succeeds immediately when the whole string starts
with the marker and the capture succeeds there. -/
theorem findSelectorGroup_marker (body grp : Str)
    (h : lastCloseGroup body = some grp) :
    findSelectorGroup (selectorMarker ++ body) = some grp := by
  have hs : selectorMarker ++ body = '#' :: ("selector(".toList ++ body) := rfl
  rw [hs]
  rw [findSelectorGroup]
  rw [← hs, startsWith_append_self, if_pos rfl]
  have hdrop : (selectorMarker ++ body).drop selectorMarker.length = body :=
    List.drop_left _ _
  rw [hdrop, h]

/-- With no context keys and no selector key, a feature entry contributes
nothing. -/
theorem entryNames_nil_none (e : Str × FeatureValue) :
    entryNames [] none e = [] := by
  unfold entryNames
  simp

/-- The names a graph's symbols carry directly (step 1 of the Name
Resolver). -/
def ownNames (g : SymbolGraph) : List Str :=
  g.flatMap (fun ce => ce.2.flatMap ownNamesOfSymbol)

/-- With no context keys and no selector key, a symbol contributes exactly
its own cleaned name. -/
theorem symbolNames_no_keys (s : Symbol) :
    symbolNames [] none s = ownNamesOfSymbol s := by
  unfold symbolNames
  have h : ∀ l : List (Str × FeatureValue), l.flatMap (entryNames [] none) = [] := by
    intro l
    induction l with
    | nil => rfl
    | cons e t ih => simp [entryNames_nil_none, ih]
  rw [h, List.append_nil]

/-- The keys of a restricted graph all come from the required context
keys. -/
theorem graphKeys_restrictGraph_subset (req : List Str) (d : SymbolGraph) :
    ∀ k ∈ graphKeys (restrictGraph req d), k ∈ req := by
  intro k hk
  unfold graphKeys restrictGraph at hk
  simp only [List.mem_map, List.mem_filterMap] at hk
  obtain ⟨ce, ⟨a, ha, hfa⟩, rfl⟩ := hk
  cases hl : alookup d a with
  | none => rw [hl] at hfa; exact absurd hfa (by simp)
  | some v =>
    rw [hl] at hfa
    obtain rfl : (a, v) = ce := by simpa using hfa
    exact ha

/-- Shape of any emitted window: its input graph is the (non-empty)
restriction through the looked-up context keys. -/
theorem processCategory_shape (d out : SymbolGraph) (category : Str)
    (w : Window) (h : processCategory d out category = some w) :
    ∃ req, alookup contextMapLabels category = some req ∧
      w.inputGraph = restrictGraph req d ∧ restrictGraph req d ≠ [] := by
  unfold processCategory at h
  split at h
  · exact absurd h (by simp)
  · rename_i req hctx
    split at h
    · exact absurd h (by simp)
    · rename_i hne
      split at h
      · cases h
        exact ⟨req, hctx, rfl, hne⟩
      · split at h
        · cases h
          exact ⟨req, hctx, rfl, hne⟩
        · exact absurd h (by simp)

/-! ### Definitions written from the claims under examination, for
comparison against the source-derived ones -/

/-- The normalization rule as claim C3 words it: strip a single leading
member-of marker '.' if present, and strip everything from the first
parameter-list delimiter '(' onward. -/
def claimedNormalize (s : Str) : Str :=
  (match s with
   | '.' :: t => t
   | other => other).takeWhile (· != '(')

/-- The field-mapping resolution as claim C8 words it: find an
abbreviated key `k` with `FieldMapping[k] = semanticName`. -/
def claimedFieldResolve (mapping : List (Str × Str)) (sem : Str) : Option Str :=
  (mapping.find? (fun kv => decide (kv.2 = sem))).map (fun kv => kv.1)

/-- `keys_with_names` as it would be were claim C8's resolution direction
the one in force. -/
def claimedKeysWithNames (mapping : List (Str × Str)) : List Str :=
  privilegedNames.filterMap (fun sem =>
    match claimedFieldResolve mapping sem with
    | some k => if k = [] then none else some k
    | none => none)

/-- The Name Resolver universe as it would be were claim C8's resolution
direction the one in force. -/
def claimedInputUniverse (mapping : List (Str × Str)) (g : SymbolGraph) :
    List Str :=
  g.flatMap (fun ce => ce.2.flatMap
    (symbolNames (claimedKeysWithNames mapping)
      (claimedFieldResolve mapping "selector_refs".toList)))

/-! ### Claim theorems -/

/-- C9: name normalization is idempotent —
`clean_symbol_name (clean_symbol_name x) = clean_symbol_name x` for every
string `x`. -/
theorem clean_symbol_name_idempotent (s : Str) :
    cleanSymbolName (cleanSymbolName s) = cleanSymbolName s := by
  have h : okParen ((removeParenSpan s).dropWhile (· == '.')) :=
    okParen_dropWhile _ _ (okParen_removeParenSpan s)
  unfold cleanSymbolName
  rw [removeParenSpan_of_okParen _ h]
  exact List.dropWhile_idempotent _ _

/-- C2: the Containment Verifier returns Pass exactly when the normalized
output names are a subset of the Name Resolver universe of the input
graph, and on Fail the attached missing list is (membership-wise) exactly
the set difference of the output names and the universe. -/
theorem containment_verifier_pass_fail (mapping : List (Str × Str))
    (g o : SymbolGraph) :
    (verifyPair mapping g o = .pass ↔
      ∀ x ∈ outputNames o, x ∈ inputUniverse mapping g)
  ∧ ∀ ms, verifyPair mapping g o = .fail ms →
      ∀ x, x ∈ ms ↔ x ∈ outputNames o ∧ x ∉ inputUniverse mapping g :=
  ⟨verifyPair_pass_iff mapping g o, fun ms h => verifyPair_fail_mem mapping g o ms h⟩

/-- Witness for C2, instantiating the Fail characterization on the spec's
Scenario D: universe from names foo and baz, expected output qux. -/
theorem containment_verifier_pass_fail_witness :
    "qux".toList ∈ ["qux".toList] ↔
      "qux".toList ∈ outputNames [("methods".toList, [⟨some "qux".toList, []⟩])] ∧
      "qux".toList ∉ inputUniverse []
        [("methods".toList, [⟨some "foo".toList, []⟩, ⟨some "baz".toList, []⟩])] :=
  (containment_verifier_pass_fail []
    [("methods".toList, [⟨some "foo".toList, []⟩, ⟨some "baz".toList, []⟩])]
    [("methods".toList, [⟨some "qux".toList, []⟩])]).2
    ["qux".toList] (by decide) "qux".toList

/-- C5: a window whose expected-output symbol names are all drawn verbatim
from the symbol names occurring in its input graph always verifies as
Pass. -/
theorem positive_verbatim_passes (mapping : List (Str × Str))
    (g o : SymbolGraph)
    (h : ∀ ce ∈ o, ∀ s ∈ ce.2, ∀ n, s.symbol_name = some n →
          ∃ ce2 ∈ g, ∃ s2 ∈ ce2.2, s2.symbol_name = some n) :
    verifyPair mapping g o = .pass := by
  rw [verifyPair_pass_iff]
  intro x hx
  rw [mem_outputNames_iff] at hx
  obtain ⟨ce, hce, s, hs, n, hn, hnil, rfl⟩ := hx
  obtain ⟨ce2, hce2, s2, hs2, hn2⟩ := h ce hce s hs n hn
  exact ownName_mem_inputUniverse mapping g ce2 s2 n hce2 hs2 hn2 hnil

/-- Witness for C5 on a concrete pair whose output names appear verbatim
among the input symbol names. -/
theorem positive_verbatim_passes_witness :
    verifyPair []
      [("methods".toList, [⟨some "viewDidLoad(())".toList, []⟩]),
       ("classes".toList, [⟨some "Bar".toList, []⟩])]
      [("methods".toList, [⟨some "viewDidLoad(())".toList, []⟩])] = .pass :=
  positive_verbatim_passes []
    [("methods".toList, [⟨some "viewDidLoad(())".toList, []⟩]),
     ("classes".toList, [⟨some "Bar".toList, []⟩])]
    [("methods".toList, [⟨some "viewDidLoad(())".toList, []⟩])]
    (by decide)

/-- C10 counterexample: an expected-output symbol whose non-empty
`symbol_name` `"(x)"` normalizes to the empty string makes the verifier
attach a missing-names list that contains the empty name, so an empty
name can appear in a Fail result's missing list. -/
theorem nameless_output_counterexample :
    verifyPair [] [] [("methods".toList, [⟨some "(x)".toList, []⟩])]
      = .fail [([] : Str)] := by
  decide

/-- C10 as amended: an output symbol with a missing or empty
`symbol_name` contributes nothing to the output-name set; an expected
output consisting only of such symbols verifies as Pass; and every entry
of a Fail missing list arises from a symbol whose `symbol_name` is
present and non-empty (though that entry may itself be empty when such a
name normalizes to the empty string). -/
theorem nameless_output_contributes_nothing :
    (∀ s : Symbol, s.symbol_name = none ∨ s.symbol_name = some [] →
        outputNameOfSymbol s = none)
  ∧ (∀ (mapping : List (Str × Str)) (g o : SymbolGraph),
        (∀ ce ∈ o, ∀ s ∈ ce.2, s.symbol_name = none ∨ s.symbol_name = some []) →
        verifyPair mapping g o = .pass)
  ∧ (∀ (mapping : List (Str × Str)) (g o : SymbolGraph) (ms : List Str)
        (x : Str), verifyPair mapping g o = .fail ms → x ∈ ms →
        ∃ ce ∈ o, ∃ s ∈ ce.2, ∃ n, s.symbol_name = some n ∧ n ≠ [] ∧
          x = cleanSymbolName n) := by
  refine ⟨?_, ?_, ?_⟩
  · intro s hs
    unfold outputNameOfSymbol
    rcases hs with hs | hs
    · rw [hs]
    · rw [hs]
      rfl
  · intro mapping g o h
    rw [verifyPair_pass_iff]
    intro x hx
    rw [mem_outputNames_iff] at hx
    obtain ⟨ce, hce, s, hs, n, hn, hnil, rfl⟩ := hx
    rcases h ce hce s hs with hs2 | hs2
    · rw [hn] at hs2
      exact absurd hs2 (by simp)
    · rw [hn] at hs2
      exact absurd (by simpa using hs2) hnil
  · intro mapping g o ms x hfail hx
    have h1 := (verifyPair_fail_mem mapping g o ms hfail x).1 hx
    exact (mem_outputNames_iff o x).1 h1.1

/-- Witness for the amended C10: an all-nameless expected output passes,
and the empty missing-list entry of the counterexample is traced back to
the non-empty name `"(x)"`. -/
theorem nameless_output_contributes_nothing_witness :
    (verifyPair [] []
      [("methods".toList, [⟨none, []⟩, ⟨some [], []⟩])] = .pass)
  ∧ ∃ ce ∈ [("methods".toList, [(⟨some "(x)".toList, []⟩ : Symbol)])],
      ∃ s ∈ ce.2, ∃ n, s.symbol_name = some n ∧ n ≠ [] ∧
        ([] : Str) = cleanSymbolName n :=
  ⟨nameless_output_contributes_nothing.2.1 [] []
    [("methods".toList, [⟨none, []⟩, ⟨some [], []⟩])] (by decide),
   nameless_output_contributes_nothing.2.2 [] []
    [("methods".toList, [⟨some "(x)".toList, []⟩])] [([] : Str)] []
    (by decide) (by decide)⟩

/-- C1: the Sample Labeler's decision is exactly three-way — for a built
window (context keys found, restriction non-empty): a category keyed in
the output graph with a non-empty list yields a Positive window with that
list verbatim; otherwise a category keyed in the original input graph
yields a Negative window with empty expected output; otherwise no window
is emitted. -/
theorem sample_labeler_three_way (d out : SymbolGraph) (category : Str)
    (req : List Str) (hreq : alookup contextMapLabels category = some req)
    (hne : restrictGraph req d ≠ []) :
    (∀ l, alookup out category = some l → l ≠ [] →
        processCategory d out category =
          some ⟨restrictGraph req d, .positive, l⟩)
  ∧ ((alookup out category = none ∨ alookup out category = some []) →
      (alookup d category).isSome = true →
        processCategory d out category =
          some ⟨restrictGraph req d, .negative, []⟩)
  ∧ ((alookup out category = none ∨ alookup out category = some []) →
      alookup d category = none →
        processCategory d out category = none) := by
  refine ⟨?_, ?_, ?_⟩
  · intro l hl hlne
    cases l with
    | nil => exact absurd rfl hlne
    | cons s rest =>
      unfold processCategory
      rw [hreq]
      dsimp only
      rw [if_neg hne, hl]
  · intro hout hd
    unfold processCategory
    rw [hreq]
    dsimp only
    rw [if_neg hne]
    rcases hout with hout | hout
    · rw [hout]
      dsimp only
      rw [if_pos hd]
    · rw [hout]
      dsimp only
      rw [if_pos hd]
  · intro hout hd
    unfold processCategory
    rw [hreq]
    dsimp only
    rw [if_neg hne]
    rcases hout with hout | hout
    · rw [hout]
      dsimp only
      rw [if_neg (by rw [hd]; simp)]
    · rw [hout]
      dsimp only
      rw [if_neg (by rw [hd]; simp)]

/-- Witness for C1: the Positive branch on a concrete file whose
protocols category carries a label. -/
theorem sample_labeler_three_way_witness :
    processCategory [("protocols".toList, [⟨some "P".toList, []⟩])]
      [("protocols".toList, [⟨some "P".toList, []⟩])] "protocols".toList
      = some ⟨restrictGraph ["protocols".toList]
          [("protocols".toList, [⟨some "P".toList, []⟩])], .positive,
          [⟨some "P".toList, []⟩]⟩ :=
  (sample_labeler_three_way
    [("protocols".toList, [⟨some "P".toList, []⟩])]
    [("protocols".toList, [⟨some "P".toList, []⟩])]
    "protocols".toList ["protocols".toList] (by decide) (by decide)).1
    [⟨some "P".toList, []⟩] (by decide) (by decide)

/-- C4: every emitted context window restricts its input graph to the
context-map entry of its category (so its keys are a subset of that
entry), windows only exist over a non-empty restriction, and an empty
restriction produces nothing — in the label splitter and in the input
splitter alike. -/
theorem context_window_invariants :
    (∀ (d out : SymbolGraph) (category : Str) (w : Window) (req : List Str),
        processCategory d out category = some w →
        alookup contextMapLabels category = some req →
        (∀ k ∈ graphKeys w.inputGraph, k ∈ req) ∧ w.inputGraph ≠ [])
  ∧ (∀ (d out : SymbolGraph) (category : Str) (req : List Str),
        alookup contextMapLabels category = some req →
        restrictGraph req d = [] →
        processCategory d out category = none)
  ∧ (∀ (orig : SymbolGraph) (group : Str) (g : SymbolGraph) (req : List Str),
        splitGroup orig group = some g →
        alookup contextMapInputs group = some req →
        (∀ k ∈ graphKeys g, k ∈ req) ∧ g ≠ [])
  ∧ (∀ (orig : SymbolGraph) (group : Str) (req : List Str),
        alookup contextMapInputs group = some req →
        restrictGraph req orig = [] →
        splitGroup orig group = none) := by
  refine ⟨?_, ?_, ?_, ?_⟩
  · intro d out category w req h hreq
    obtain ⟨req2, hreq2, hw, hne⟩ := processCategory_shape d out category w h
    have he : req2 = req := Option.some_inj.1 (hreq2.symm.trans hreq)
    rw [he] at hw hne
    rw [hw]
    exact ⟨graphKeys_restrictGraph_subset req d, hne⟩
  · intro d out category req hreq hempty
    unfold processCategory
    rw [hreq]
    dsimp only
    rw [if_pos hempty]
  · intro orig group g req h hreq
    unfold splitGroup at h
    rw [hreq] at h
    dsimp only at h
    by_cases hempty : restrictGraph req orig = []
    · rw [if_pos hempty] at h
      exact absurd h (by simp)
    · rw [if_neg hempty] at h
      obtain rfl : restrictGraph req orig = g := by simpa using h
      exact ⟨graphKeys_restrictGraph_subset req orig, hempty⟩
  · intro orig group req hreq hempty
    unfold splitGroup
    rw [hreq]
    dsimp only
    rw [if_pos hempty]

/-- Witness for C4: the emitted-window invariant checked on a concrete
enumCases window of the label splitter. -/
theorem context_window_invariants_witness :
    (∀ k ∈ graphKeys
        (⟨[("enums".toList, [(⟨some "E".toList, []⟩ : Symbol)]),
           ("enumCases".toList, [(⟨some ".a".toList, []⟩ : Symbol)])],
          SampleLabel.negative, []⟩ : Window).inputGraph,
        k ∈ ["enums".toList, "enumCases".toList])
  ∧ (⟨[("enums".toList, [(⟨some "E".toList, []⟩ : Symbol)]),
       ("enumCases".toList, [(⟨some ".a".toList, []⟩ : Symbol)])],
        SampleLabel.negative, []⟩ : Window).inputGraph ≠ [] :=
  context_window_invariants.1
    [("enums".toList, [⟨some "E".toList, []⟩]),
     ("enumCases".toList, [⟨some ".a".toList, []⟩])]
    [] "enumCases".toList
    ⟨[("enums".toList, [⟨some "E".toList, []⟩]),
      ("enumCases".toList, [⟨some ".a".toList, []⟩])], .negative, []⟩
    ["enums".toList, "enumCases".toList] (by decide) (by decide)

/-- The `keys_with_names` computation generalized over the list of
semantic names it resolves: each name in the list is looked up in the
mapping and kept when the result is truthy. `keysWithNames` is this at
the fixed list of the five privileged names. -/
def keysFromList (mapping : List (Str × Str)) (names : List Str) : List Str :=
  names.filterMap (fun sem =>
    match alookup mapping sem with
    | some k => if k = [] then none else some k
    | none => none)

/-- The Name Resolver universe generalized over the list of privileged
semantic names fed to the key resolution; `inputUniverse` is this at the
five privileged names. -/
def inputUniverseFrom (names : List Str) (mapping : List (Str × Str))
    (g : SymbolGraph) : List Str :=
  g.flatMap (fun ce => ce.2.flatMap
    (symbolNames (keysFromList mapping names)
      (alookup mapping "selector_refs".toList)))

/-- Unfolding of the per-name key resolution performed inside
`keys_with_names`. -/
theorem keyFn_eq_some (mapping : List (Str × Str)) (sem k : Str) :
    (match alookup mapping sem with
      | some k2 => if k2 = [] then none else some k2
      | none => none) = some k ↔
      alookup mapping sem = some k ∧ k ≠ [] := by
  cases hlk : alookup mapping sem with
  | none => simp
  | some k2 =>
    dsimp only
    by_cases hnil : k2 = []
    · subst hnil
      simp
    · rw [if_neg hnil]
      constructor
      · intro hh
        obtain rfl : k2 = k := by simpa using hh
        exact ⟨rfl, hnil⟩
      · rintro ⟨hh, -⟩
        obtain rfl : k2 = k := by simpa using hh
        rfl

/-- C7: the Name Resolver is a total function of the mapping and the
graph, and the skipping is per name, under arbitrary (mixed) mappings:
the universe is the generalized universe at the five privileged names; a
semantic name with no mapped key (or an empty one) can be dropped from
the privileged list without changing the universe — its extraction step
contributes nothing while the remaining names' steps are untouched;
an abbreviated key is consulted if and only if some privileged semantic
name resolves to it; with no mapped `selector_refs` key no entry takes
the selector branch; if additionally no privileged name at all is mapped
the universe degenerates to the symbols' own cleaned names; and a
selector entry with no extractable token (or an empty one) contributes
nothing. -/
theorem name_resolver_skips_silently :
    (∀ (mapping : List (Str × Str)) (g : SymbolGraph),
        inputUniverse mapping g = inputUniverseFrom privilegedNames mapping g)
  ∧ (∀ (mapping : List (Str × Str)) (g : SymbolGraph) (pre post : List Str)
        (sem : Str),
        alookup mapping sem = none ∨ alookup mapping sem = some [] →
        inputUniverseFrom (pre ++ sem :: post) mapping g =
          inputUniverseFrom (pre ++ post) mapping g)
  ∧ (∀ (mapping : List (Str × Str)) (k : Str),
        k ∈ keysWithNames mapping ↔
          ∃ sem ∈ privilegedNames, alookup mapping sem = some k ∧ k ≠ [])
  ∧ (∀ (kwn : List Str) (e : Str × FeatureValue), e.1 ∉ kwn →
        entryNames kwn none e = [])
  ∧ (∀ (mapping : List (Str × Str)) (g : SymbolGraph),
        alookup mapping "references".toList = none →
        alookup mapping "calls_out".toList = none →
        alookup mapping "inherits".toList = none →
        alookup mapping "conforms".toList = none →
        alookup mapping "extension_of".toList = none →
        alookup mapping "selector_refs".toList = none →
        inputUniverse mapping g = ownNames g)
  ∧ (∀ (sel : Str) (l : List Str),
        extractSelectorName sel = none ∨ extractSelectorName sel = some [] →
        selectorNamesFromValue (.list (sel :: l)) =
          selectorNamesFromValue (.list l)) := by
  refine ⟨?_, ?_, ?_, ?_, ?_, ?_⟩
  · intro mapping g
    rfl
  · intro mapping g pre post sem h
    unfold inputUniverseFrom
    have hf : (match alookup mapping sem with
        | some k => if k = [] then none else some k
        | none => none) = (none : Option Str) := by
      rcases h with h | h
      · rw [h]
      · rw [h]
        rfl
    have hk : keysFromList mapping (pre ++ sem :: post) =
        keysFromList mapping (pre ++ post) := by
      unfold keysFromList
      rw [List.filterMap_append, List.filterMap_append, List.filterMap_cons, hf]
    rw [hk]
  · intro mapping k
    unfold keysWithNames
    simp only [List.mem_filterMap, keyFn_eq_some]
  · intro kwn e h
    unfold entryNames
    rw [if_neg h, if_neg (by simp)]
  · intro mapping g h1 h2 h3 h4 h5 h6
    have hk : keysWithNames mapping = [] := by
      unfold keysWithNames privilegedNames
      rw [List.filterMap_cons, h1, List.filterMap_cons, h2,
        List.filterMap_cons, h3, List.filterMap_cons, h4,
        List.filterMap_cons, h5, List.filterMap_nil]
    unfold inputUniverse
    rw [hk, h6]
    rw [show symbolNames [] none = ownNamesOfSymbol from funext symbolNames_no_keys]
    rfl
  · intro sel l h
    unfold selectorNamesFromValue
    dsimp only
    rw [List.filterMap_cons]
    rcases h with h | h
    · rw [h]
    · rw [h]
      rfl

/-- Witness for C7, on a mixed mapping that resolves `calls_out` but not
`references`: dropping the unmapped `references` from the privileged
list leaves the universe unchanged (while the `calls_out` step still
runs), and a selector entry without any extractable token is dropped
from a selector list. -/
theorem name_resolver_skips_silently_witness :
    inputUniverseFrom
        ("references".toList :: "calls_out".toList :: "inherits".toList ::
          "conforms".toList :: "extension_of".toList :: [])
        [("calls_out".toList, "p16".toList)]
        [("methods".toList,
          [⟨some "m".toList, [("p16".toList, .list ["baz(_:)".toList])]⟩])]
      = inputUniverseFrom
        ("calls_out".toList :: "inherits".toList ::
          "conforms".toList :: "extension_of".toList :: [])
        [("calls_out".toList, "p16".toList)]
        [("methods".toList,
          [⟨some "m".toList, [("p16".toList, .list ["baz(_:)".toList])]⟩])]
  ∧ selectorNamesFromValue (.list ["not a selector".toList, "#selector(onTap)".toList])
      = selectorNamesFromValue (.list ["#selector(onTap)".toList]) :=
  ⟨name_resolver_skips_silently.2.1 [("calls_out".toList, "p16".toList)]
    [("methods".toList,
      [⟨some "m".toList, [("p16".toList, .list ["baz(_:)".toList])]⟩])]
    []
    ("calls_out".toList :: "inherits".toList ::
      "conforms".toList :: "extension_of".toList :: [])
    "references".toList (Or.inl (by decide)),
   name_resolver_skips_silently.2.2.2.2.2 "not a selector".toList
    ["#selector(onTap)".toList] (Or.inl (by decide))⟩

/-- C8 counterexample: take the FieldMapping in the claim's declared
direction (abbreviated key to semantic name, here `p16 -> calls_out`) and
a symbol whose `p16` feature lists `baz(_:)`. Under the claimed inverse
resolution the universe would contain `baz`, but the code's universe,
which looks the semantic name up directly as a dict key, does not — the
extraction does not behave as the claim states. -/
theorem field_mapping_direction_counterexample :
    "baz".toList ∈ claimedInputUniverse [("p16".toList, "calls_out".toList)]
      [("methods".toList,
        [⟨some "m".toList, [("p16".toList, .list ["baz(_:)".toList])]⟩])]
  ∧ "baz".toList ∉ inputUniverse [("p16".toList, "calls_out".toList)]
      [("methods".toList,
        [⟨some "m".toList, [("p16".toList, .list ["baz(_:)".toList])]⟩])] := by
  decide

/-- C8 as amended: the per-file FieldMapping maps semantic feature names
to abbreviated keys; for every privileged semantic name the extraction
code obtains the abbreviated key by direct lookup `mapping[semanticName]`
(skipping it when absent or empty) and matches feature entries by that
abbreviated key, so every name listed under such an entry reaches the
universe. -/
theorem field_mapping_direct_lookup (mapping : List (Str × Str))
    (g : SymbolGraph) (ce : Str × List Symbol) (s : Symbol) (k : Str)
    (vs : List Str) (sem : Str) (hce : ce ∈ g) (hs : s ∈ ce.2)
    (hentry : (k, FeatureValue.list vs) ∈ s.input)
    (hsem : sem ∈ privilegedNames) (hlk : alookup mapping sem = some k)
    (hk : k ≠ []) :
    ∀ v ∈ vs, cleanSymbolName v ∈ inputUniverse mapping g := by
  intro v hv
  unfold inputUniverse
  rw [List.mem_flatMap]
  refine ⟨ce, hce, ?_⟩
  rw [List.mem_flatMap]
  refine ⟨s, hs, ?_⟩
  unfold symbolNames
  refine List.mem_append_right _ ?_
  rw [List.mem_flatMap]
  refine ⟨(k, .list vs), hentry, ?_⟩
  have hkmem : k ∈ keysWithNames mapping := by
    unfold keysWithNames
    rw [List.mem_filterMap]
    refine ⟨sem, hsem, ?_⟩
    rw [hlk]
    dsimp only
    rw [if_neg hk]
  unfold entryNames
  rw [if_pos hkmem]
  exact List.mem_map_of_mem _ hv

/-- Witness for the amended C8, realizing the spec's Scenario B: the
mapping sends `calls_out` to `p16` and a symbol's `p16` feature holds
`baz(_:)`, so `baz` is in the universe. -/
theorem field_mapping_direct_lookup_witness :
    cleanSymbolName "baz(_:)".toList ∈
      inputUniverse [("calls_out".toList, "p16".toList)]
        [("methods".toList,
          [⟨some "m".toList, [("p16".toList, .list ["baz(_:)".toList])]⟩])] :=
  field_mapping_direct_lookup [("calls_out".toList, "p16".toList)]
    [("methods".toList,
      [⟨some "m".toList, [("p16".toList, .list ["baz(_:)".toList])]⟩])]
    ("methods".toList,
      [⟨some "m".toList, [("p16".toList, .list ["baz(_:)".toList])]⟩])
    ⟨some "m".toList, [("p16".toList, .list ["baz(_:)".toList])]⟩
    "p16".toList ["baz(_:)".toList] "calls_out".toList
    (by decide) (by decide) (by decide) (by decide) (by decide) (by decide)
    "baz(_:)".toList (by decide)

/-- A membership form of the boolean disequality tests used by the
`takeWhile`/`dropWhile` predicates. -/
theorem bne_of_not_mem (c x : Char) (l : Str) (h : c ∉ l) (hx : x ∈ l) :
    (x != c) = true := by
  simp only [bne_iff_ne, ne_eq]
  intro he
  exact h (he ▸ hx)

/-- C3 counterexample: `clean_symbol_name` lstrips every leading dot (not
a single one), and its regex removes the span from the first '(' to the
last ')' (requiring a closing parenthesis and keeping any tail after it)
rather than everything from the first '(' onward; the claimed
normalization differs on all three points. -/
theorem clean_symbol_name_claim_counterexample :
    cleanSymbolName "..caseName".toList ≠ claimedNormalize "..caseName".toList
  ∧ cleanSymbolName "f(x)g".toList ≠ claimedNormalize "f(x)g".toList
  ∧ cleanSymbolName "f(x".toList ≠ claimedNormalize "f(x".toList
  ∧ cleanSymbolName "..caseName".toList = "caseName".toList
  ∧ cleanSymbolName "f(x)g".toList = "fg".toList
  ∧ cleanSymbolName "f(x".toList = "f(x".toList := by
  decide

/-- C3 as amended: normalization removes the span from the first '('
through the last ')' when the string contains a ')' somewhere after its
first '(' (leaving everything else, including an unmatched '(', in
place), and then strips all leading '.' characters; a bare `.caseName`
still becomes `caseName`. -/
theorem clean_symbol_name_span_behavior :
    (∀ u mid t : Str, '(' ∉ u → ')' ∉ t →
        cleanSymbolName (u ++ '(' :: (mid ++ ')' :: t)) =
          (u ++ t).dropWhile (· == '.'))
  ∧ (∀ s : Str, okParen s → cleanSymbolName s = s.dropWhile (· == '.')) := by
  constructor
  · intro u mid t hu ht
    have hu' : ∀ y ∈ u, ((y != '(') = true) :=
      fun y hy => bne_of_not_mem '(' y u hu hy
    unfold cleanSymbolName removeParenSpan
    rw [dropWhile_append_stop _ u '(' (mid ++ ')' :: t) hu' (by simp)]
    rw [if_pos (show (')' : Char) ∈ '(' :: (mid ++ ')' :: t) by simp)]
    rw [takeWhile_append_stop _ u '(' (mid ++ ')' :: t) hu' (by simp)]
    have hrev : ('(' :: (mid ++ ')' :: t)).reverse =
        t.reverse ++ ')' :: (mid.reverse ++ ['(']) := by
      simp
    rw [hrev]
    rw [takeWhile_append_stop _ t.reverse ')' (mid.reverse ++ ['('])
      (fun y hy => bne_of_not_mem ')' y t.reverse (by simpa using ht) hy)
      (by simp)]
    rw [List.reverse_reverse]
  · intro s h
    unfold cleanSymbolName
    rw [removeParenSpan_of_okParen s h]

/-- Witness for the amended C3: `.handleTap(_:)` normalizes by excising
the parenthesised span and stripping the leading dot. -/
theorem clean_symbol_name_span_behavior_witness :
    cleanSymbolName
        (".handleTap".toList ++ '(' :: ("_:".toList ++ ')' :: ([] : Str)))
      = ((".handleTap".toList ++ ([] : Str)).dropWhile (· == '.')) :=
  clean_symbol_name_span_behavior.1 ".handleTap".toList "_:".toList []
    (by decide) (by decide)

/-- C6: selector extraction strips the wrapping `#selector(...)` marker,
takes the last dotted path component, and drops the trailing parameter
list — stated generally for a dotted receiver path with an argument list,
and in particular on the spec's two scenario strings. -/
theorem selector_extraction :
    (∀ recv nm args : Str,
        '\n' ∉ recv → '\n' ∉ nm → '\n' ∉ args →
        '.' ∉ nm → '.' ∉ args → '(' ∉ nm →
        extractSelectorName
          (selectorMarker ++
            ((recv ++ '.' :: (nm ++ '(' :: (args ++ [')']))) ++ [')']))
          = some nm)
  ∧ extractSelectorName "#selector(handleTap(_:))".toList =
      some "handleTap".toList
  ∧ extractSelectorName "#selector(onTap)".toList = some "onTap".toList := by
  refine ⟨?_, by decide, by decide⟩
  intro recv nm args hnr hnn hna hdn hda hpn
  have hbody : '\n' ∉ recv ++ '.' :: (nm ++ '(' :: (args ++ [')'])) := by
    intro hmem
    simp only [List.mem_append, List.mem_cons] at hmem
    rcases hmem with h | h | h
    · exact hnr h
    · exact absurd h (by decide)
    · rcases h with h | h
      · exact hnn h
      · rcases h with h | h
        · exact absurd h (by decide)
        · rcases h with h | h
          · exact hna h
          · simp at h
  have hgrp := findSelectorGroup_marker
    ((recv ++ '.' :: (nm ++ '(' :: (args ++ [')']))) ++ [')'])
    (recv ++ '.' :: (nm ++ '(' :: (args ++ [')'])))
    (lastCloseGroup_concat _ hbody)
  unfold extractSelectorName
  rw [hgrp]
  rw [Option.map_some']
  have hY : ∀ y ∈ (nm ++ '(' :: (args ++ [')'])).reverse, ((y != '.') = true) := by
    intro y hy
    refine bne_of_not_mem '.' y _ ?_ hy
    intro hmem
    rw [List.mem_reverse] at hmem
    simp only [List.mem_append, List.mem_cons] at hmem
    rcases hmem with h | h | h
    · exact hdn h
    · exact absurd h (by decide)
    · rcases h with h | h
      · exact hda h
      · simp at h
  have hrev : (recv ++ '.' :: (nm ++ '(' :: (args ++ [')']))).reverse =
      (nm ++ '(' :: (args ++ [')'])).reverse ++ '.' :: recv.reverse := by
    simp
  rw [hrev]
  rw [takeWhile_append_stop _ _ '.' recv.reverse hY (by simp)]
  rw [List.reverse_reverse]
  rw [takeWhile_append_stop _ nm '(' (args ++ [')'])
    (fun y hy => bne_of_not_mem '(' y nm hpn hy) (by simp)]

/-- Witness for C6's general part: `#selector(Foo.handleTap(_:))`
extracts `handleTap`. -/
theorem selector_extraction_witness :
    extractSelectorName
      (selectorMarker ++
        (("Foo".toList ++ '.' :: ("handleTap".toList ++ '(' ::
          ("_:".toList ++ [')']))) ++ [')']))
      = some "handleTap".toList :=
  selector_extraction.1 "Foo".toList "handleTap".toList "_:".toList
    (by decide) (by decide) (by decide) (by decide) (by decide) (by decide)

end PropagationGraph
